import Mathlib

/-!
Verification of the chat-mcp core against its natural-language specification.

The data model follows the SQLite schema in src/mcp_server/models/database.py.
Operations present in src (agent_service.join_channel, agent_service.leave_channel,
utils.database.get_next_sequence_number, utils.database.parse_mentions, and the
REST endpoint get_messages in src/mcp_server/api) are translated directly from the
source.  The channel_service and message_service modules are absent from src (only
their tests and callers are present); the operations they provide are modelled from
the specification, as marked in their doc comments.

Machine state is a record of the five relations; every operation is a pure
function from a store to a store (threaded explicitly), with failures as Except.
Timestamps are logical Nat values.
-/

namespace ChatMCP

/-- Row of the channels table (schema in src/mcp_server/models/database.py). -/
structure Channel where
  channel_id : String
  name : String
  description : Option String
  max_agents : Nat
  created_at : Nat
  is_active : Bool
deriving DecidableEq

/-- Row of the agents table. -/
structure Agent where
  agent_id : String
  channel_id : String
  username : String
  role_description : String
  joined_at : Nat
deriving DecidableEq

/-- Row of the messages table. -/
structure Message where
  message_id : String
  channel_id : String
  agent_id : String
  content : String
  sequence_number : Nat
  created_at : Nat
deriving DecidableEq

/-- Row of the message_mentions table. -/
structure Mention where
  message_id : String
  mentioned_username : String
deriving DecidableEq

/-- Row of the read_status table. -/
structure ReadStatus where
  agent_id : String
  message_id : String
  read_at : Nat
deriving DecidableEq

/-- The whole relational store: the five tables of the schema. -/
structure Store where
  channels : List Channel
  agents : List Agent
  messages : List Message
  mentions : List Mention
  read_status : List ReadStatus
deriving DecidableEq

/-- Typed failures of the core (spec section 7); the Python services raise
ChannelError, AgentError and MessageError carrying these messages. -/
inductive SvcError where
  | validationError (msg : String)
  | notFoundError (msg : String)
  | conflictError (msg : String)
  | capacityError (msg : String)
  | dependencyError (msg : String)
deriving DecidableEq

/-- Character class of the regex fragment [a-zA-Z0-9_-] used both by the
username pattern of agent_service and by the mention pattern of
utils.database.parse_mentions. -/
def isMentionChar (c : Char) : Bool :=
  (('a' ≤ c && c ≤ 'z') || ('A' ≤ c && c ≤ 'Z') || ('0' ≤ c && c ≤ '9')
    || c = '_' || c = '-')

/-- Left-to-right scan implementing re.findall of the pattern @([a-zA-Z0-9_-]+)
from src/mcp_server/utils/database.py parse_mentions: at each @ sign, the
greedy capture is the maximal following run of class characters; a match is
consumed whole and scanning resumes after it.  The second argument is none
while scanning for an @ sign and some acc (the capture so far, reversed)
while inside a candidate capture. -/
def pmGo : List Char → Option (List Char) → List (List Char)
  | [], none => []
  | [], some acc => if acc = [] then [] else [acc.reverse]
  | c :: rest, none => if c = '@' then pmGo rest (some []) else pmGo rest none
  | c :: rest, some acc =>
    if isMentionChar c then pmGo rest (some (c :: acc))
    else
      let tail := if c = '@' then pmGo rest (some []) else pmGo rest none
      if acc = [] then tail else acc.reverse :: tail

/-- Scanner entry point: scan the whole content from scanning state. -/
def parseMentionsL (s : List Char) : List (List Char) :=
  pmGo s none

/-- Translation of parse_mentions (src/mcp_server/utils/database.py). -/
def parse_mentions (s : String) : List String :=
  (parseMentionsL s.data).map fun l => String.mk l

/-- Capture of a mention token starting at the head of the list, when there is
one: an @ sign immediately followed by at least one class character captures
the maximal run of class characters after the @ sign. -/
def tokenCapture : List Char → Option (List Char)
  | c :: d :: rest =>
    if c = '@' && isMentionChar d then some ((d :: rest).takeWhile isMentionChar)
    else none
  | _ => none

/-- Declarative reading of the regex semantics, following the words of the
spec: one capture per @username token found in the content, listed in order
of occurrence of the token positions. -/
def mentionTokensSpecL (s : List Char) : List (List Char) :=
  (List.range s.length).filterMap fun p => tokenCapture (s.drop p)

/-- String-level version of the declarative capture list. -/
def mentionTokensSpec (s : String) : List String :=
  (mentionTokensSpecL s.data).map fun l => String.mk l

example : parse_mentions "hey @bob-1 and @al_ice, hi @@carl x@dan" =
    ["bob-1", "al_ice", "carl", "dan"] := by decide

example : mentionTokensSpec "hey @bob-1 and @al_ice, hi @@carl x@dan" =
    ["bob-1", "al_ice", "carl", "dan"] := by decide

lemma isMentionChar_ne_at {c : Char} (h : isMentionChar c = true) : ¬ c = '@' := by
  intro hc
  subst hc
  exact absurd h (by decide)

lemma mentionTokensSpecL_cons (c : Char) (s : List Char) :
    mentionTokensSpecL (c :: s) =
      (tokenCapture (c :: s)).toList ++ mentionTokensSpecL s := by
  unfold mentionTokensSpecL
  rw [List.length_cons, List.range_succ_eq_map, List.filterMap_cons, List.filterMap_map]
  have hcomp : ((fun p => tokenCapture ((c :: s).drop p)) ∘ Nat.succ)
      = fun p => tokenCapture (s.drop p) := by
    funext p
    simp [Function.comp]
  rw [hcomp]
  simp only [List.drop_zero]
  cases htc : tokenCapture (c :: s) <;> simp [htc]

lemma mentionTokensSpecL_dropWhile (s : List Char) :
    mentionTokensSpecL (s.dropWhile isMentionChar) = mentionTokensSpecL s := by
  induction s with
  | nil => rfl
  | cons c rest ih =>
    cases hc : isMentionChar c with
    | false => simp [List.dropWhile_cons, hc]
    | true =>
      have hne := isMentionChar_ne_at hc
      have htc : tokenCapture (c :: rest) = none := by
        cases rest with
        | nil => rfl
        | cons d t => simp [tokenCapture, hne]
      rw [List.dropWhile_cons]
      simp only [hc, if_true]
      rw [ih, mentionTokensSpecL_cons, htc]
      simp

lemma pmGo_some (s : List Char) : ∀ acc : List Char,
    pmGo s (some acc) =
      (if acc.reverse ++ s.takeWhile isMentionChar = [] then []
        else [acc.reverse ++ s.takeWhile isMentionChar])
        ++ pmGo (s.dropWhile isMentionChar) none := by
  induction s with
  | nil =>
    intro acc
    rcases acc with _ | ⟨a, t⟩ <;> simp [pmGo]
  | cons c rest ih =>
    intro acc
    cases hc : isMentionChar c with
    | true =>
      rw [show pmGo (c :: rest) (some acc) = pmGo rest (some (c :: acc)) from by
        simp [pmGo, hc]]
      rw [ih (c :: acc), List.takeWhile_cons, List.dropWhile_cons]
      simp [hc, List.reverse_cons, List.append_assoc, List.singleton_append]
    | false =>
      rw [List.takeWhile_cons, List.dropWhile_cons]
      simp only [hc, Bool.false_eq_true, if_false]
      rcases acc with _ | ⟨a, t⟩ <;> simp [pmGo, hc]

lemma pmGo_none_eq_spec : ∀ n : Nat, ∀ s : List Char, s.length ≤ n →
    pmGo s none = mentionTokensSpecL s := by
  intro n
  induction n with
  | zero =>
    intro s hs
    have hnil : s = [] := List.length_eq_zero.mp (Nat.le_zero.mp hs)
    subst hnil
    rfl
  | succ n ih =>
    intro s hs
    match s with
    | [] => rfl
    | c :: rest =>
      have hrl : rest.length ≤ n := by
        simp only [List.length_cons] at hs
        omega
      rw [mentionTokensSpecL_cons]
      by_cases hc : c = '@'
      · subst hc
        rw [show pmGo ('@' :: rest) none = pmGo rest (some []) from by simp [pmGo]]
        rw [pmGo_some]
        simp only [List.reverse_nil, List.nil_append]
        cases rest with
        | nil => simp [tokenCapture, pmGo, mentionTokensSpecL]
        | cons d t =>
          cases hd : isMentionChar d with
          | false =>
            have htc : tokenCapture ('@' :: d :: t) = none := by
              simp [tokenCapture, hd]
            rw [htc, List.takeWhile_cons, List.dropWhile_cons]
            simp only [hd, Bool.false_eq_true, if_false, Option.toList_none,
              List.nil_append, if_pos rfl]
            exact ih (d :: t) hrl
          | true =>
            have htc : tokenCapture ('@' :: d :: t)
                = some ((d :: t).takeWhile isMentionChar) := by
              simp [tokenCapture, hd]
            rw [htc]
            have htw : (d :: t).takeWhile isMentionChar = d :: t.takeWhile isMentionChar := by
              simp [List.takeWhile_cons, hd]
            have hnonempty : ¬ (d :: t).takeWhile isMentionChar = [] := by
              simp [htw]
            rw [if_neg hnonempty]
            have hdl : ((d :: t).dropWhile isMentionChar).length ≤ n :=
              Nat.le_trans ((List.dropWhile_sublist isMentionChar).length_le) hrl
            rw [ih _ hdl, mentionTokensSpecL_dropWhile]
            simp
      · rw [show pmGo (c :: rest) none = pmGo rest none from by simp [pmGo, hc]]
        have htc : tokenCapture (c :: rest) = none := by
          cases rest <;> simp [tokenCapture, hc]
        rw [htc]
        simp only [Option.toList_none, List.nil_append]
        exact ih rest hrl

/-- C7: the mention extraction used by send (parse_mentions, translated from
src/mcp_server/utils/database.py) returns exactly the list of capture groups
of the pattern for an @ sign followed by a run of characters from
[A-Za-z0-9_-], one entry per token found in the content, in order of
occurrence. -/
theorem parse_mentions_matches_regex (s : String) :
    parse_mentions s = mentionTokensSpec s := by
  unfold parse_mentions mentionTokensSpec parseMentionsL
  rw [pmGo_none_eq_spec s.data.length s.data (Nat.le_refl _)]

/-- Foreign-key enforcement state of an operational connection.  Modelled from
the source: get_db (src/mcp_server/models/database.py) opens a fresh aiosqlite
connection and sets only row_factory; it runs no PRAGMA, SQLite foreign-key
enforcement is off by default, and the PRAGMA foreign_keys = ON line of SCHEMA
applies only to the separate connection used by init_database, since that
pragma is per connection and never persisted. -/
def get_db_foreign_keys : Bool := false

/-- Number of agent rows of a channel (the COUNT query behind the capacity
check). -/
def agentCount (st : Store) (cid : String) : Nat :=
  (st.agents.filter fun a => a.channel_id == cid).length

/-- Modelled from the spec: channel_service.get_channel is absent from src;
per spec section 4.1, lookup by id returns the channel or an absent signal,
without raising. -/
def get_channel (st : Store) (cid : String) : Option Channel :=
  st.channels.find? fun ch => ch.channel_id == cid

/-- Modelled from the spec: channel_service.validate_channel_capacity is
absent from src; per spec section 4.1 it succeeds silently iff the live agent
count is strictly below max_agents and otherwise fails with CapacityError
(channel at maximum capacity). -/
def validate_channel_capacity (st : Store) (cid : String) : Except SvcError Unit :=
  match get_channel st cid with
  | none => .error (.notFoundError "Channel not found")
  | some ch =>
    if agentCount st cid < ch.max_agents then .ok ()
    else .error (.capacityError "channel at maximum capacity")

/-- Core of the username pattern of agent_service: a run of 3 to 50 characters
of the class [a-zA-Z0-9_-]. -/
def username_core (l : List Char) : Bool :=
  decide (3 ≤ l.length) && decide (l.length ≤ 50) && l.all isMentionChar

/-- Translation of USERNAME_PATTERN.match of
src/mcp_server/services/agent_service.py.  The Python pattern is anchored
with a dollar sign, which in Python also matches just before one trailing
newline, so a valid run followed by a single final newline passes too. -/
def username_valid (u : String) : Bool :=
  username_core u.data ||
    (u.data.getLast? == some '\n' && username_core u.data.dropLast)

/-- Translation of join_channel (src/mcp_server/services/agent_service.py).
The check on the role description reads: not role_description or length below
10 or above 200; the emptiness test is subsumed by the lower bound.  The DB
uniqueness constraint on (channel_id, username) is modelled as a membership
test at insertion time; the fresh agent id and the join timestamp are
parameters (the source draws them from uuid4 and CURRENT_TIMESTAMP). -/
def join_channel (st : Store) (cid username role_description aid : String)
    (now : Nat) : Except SvcError (Store × Agent) :=
  if !(username_valid username) then
    .error (.validationError
      "Username must be 3-50 alphanumeric characters (hyphens/underscores allowed)")
  else if role_description.length < 10 ∨ role_description.length > 200 then
    .error (.validationError "Role description must be 10-200 characters")
  else
    match get_channel st cid with
    | none => .error (.notFoundError "Channel not found")
    | some _ =>
      match validate_channel_capacity st cid with
      | .error e => .error e
      | .ok _ =>
        if st.agents.any fun a => a.channel_id == cid && a.username == username then
          .error (.conflictError "username already exists in this channel")
        else
          let ag : Agent :=
            { agent_id := aid, channel_id := cid, username := username,
              role_description := role_description, joined_at := now }
          .ok ({ st with agents := st.agents ++ [ag] }, ag)

/-- Effect of DELETE FROM agents WHERE agent_id = ? AND channel_id = ? on one
connection, parameterized by whether that connection enforces foreign keys.
With enforcement on, the schema cascades would remove the read_status rows of
the agent, the messages it authored, and in turn the mention and read_status
rows of those messages; with enforcement off, only the agent row goes away. -/
def delete_agent_stmt (fk : Bool) (st : Store) (cid aid : String) : Store :=
  let base := { st with
    agents := st.agents.filter fun a => !(a.agent_id == aid && a.channel_id == cid) }
  if fk then
    let deadMsg : String → Bool := fun mid =>
      (st.messages.filter fun m => m.agent_id == aid).any fun m => m.message_id == mid
    { base with
      messages := base.messages.filter fun m => !(m.agent_id == aid),
      mentions := base.mentions.filter fun x => !(deadMsg x.message_id),
      read_status := base.read_status.filter fun r =>
        !(r.agent_id == aid) && !(deadMsg r.message_id) }
  else base

/-- Translation of leave_channel (src/mcp_server/services/agent_service.py):
verify the agent exists in the channel, then issue the DELETE on a get_db
connection. -/
def leave_channel (st : Store) (cid aid : String) : Except SvcError Store :=
  if st.agents.any fun a => a.agent_id == aid && a.channel_id == cid then
    .ok (delete_agent_stmt get_db_foreign_keys st cid aid)
  else .error (.notFoundError "Agent not found in channel")

/-- MAX(sequence_number) over the messages of the channel, 0 when none. -/
def max_sequence_number (st : Store) (cid : String) : Nat :=
  (st.messages.filter fun m => m.channel_id == cid).foldl
    (fun acc m => max acc m.sequence_number) 0

/-- Translation of get_next_sequence_number
(src/mcp_server/utils/database.py): COALESCE(MAX(sequence_number), 0) + 1. -/
def get_next_sequence_number (st : Store) (cid : String) : Nat :=
  max_sequence_number st cid + 1

/-- Whether a read_status row exists for the (agent, message) pair. -/
def hasRead (st : Store) (aid mid : String) : Bool :=
  st.read_status.any fun r => r.agent_id == aid && r.message_id == mid

/-- Modelled from the spec: the read-marking insert of the absent
message_service, idempotent per spec section 4.4 (insert only if absent,
never an error). -/
def markRead (st : Store) (aid mid : String) (now : Nat) : Store :=
  if hasRead st aid mid then st
  else { st with read_status := st.read_status ++ [⟨aid, mid, now⟩] }

/-- Modelled from the spec: message_service.send_message is absent from src.
Per spec section 4.3: validate content length 1-4000; parse mentions; resolve
every captured username against the agents of the channel, failing wholesale
with DependencyError when one does not resolve; on success compute the next
sequence number and insert the message row, one mention row per resolved
username (the mention table has a primary key on the pair, so duplicate
tokens collapse), and a read_status row for the sender.  The fresh message id
and the timestamp are parameters. -/
def send_message (st : Store) (cid aid content mid : String) (now : Nat) :
    Except SvcError (Store × Message) :=
  if content.length < 1 ∨ content.length > 4000 then
    .error (.validationError "Message content must be 1-4000 characters")
  else
    let ms := parse_mentions content
    if ms.any fun u => !(st.agents.any fun a => a.channel_id == cid && a.username == u) then
      .error (.dependencyError "mentioned username not found in channel")
    else
      let m : Message :=
        { message_id := mid, channel_id := cid, agent_id := aid,
          content := content, sequence_number := get_next_sequence_number st cid,
          created_at := now }
      .ok ({ st with
        messages := st.messages ++ [m],
        mentions := st.mentions ++ ms.eraseDups.map fun u => ⟨mid, u⟩,
        read_status := st.read_status ++ [⟨aid, mid, now⟩] }, m)

/-- Unread post-join messages of the channel for the agent, in table order. -/
def unreadList (st : Store) (cid aid : String) (ag : Agent) : List Message :=
  st.messages.filter fun m =>
    m.channel_id == cid && decide (ag.joined_at < m.created_at)
      && !(hasRead st aid m.message_id)

/-- Order of the ORDER BY sequence_number ASC clause. -/
def seqLE (m1 m2 : Message) : Prop :=
  m1.sequence_number ≤ m2.sequence_number

instance : DecidableRel seqLE := fun _ m2 => Nat.decLe _ m2.sequence_number

instance : IsTotal Message seqLE := ⟨fun _ _ => Nat.le_total _ _⟩

instance : IsTrans Message seqLE := ⟨fun _ _ _ => Nat.le_trans⟩

/-- Modelled from the spec and the tests in src: message_service.get_new_messages
is absent from src.  Per spec section 4.4 it selects the messages of the
channel with no read_status row for the agent, ascending by sequence number,
truncated to limit, and marks each returned message read.  Per
src/tests/test_messages.py (test_agent_cannot_see_messages_before_join) the
implementation additionally restricts to messages created strictly after the
agent joined. -/
def get_new_messages (st : Store) (cid aid : String) (limit now : Nat) :
    Except SvcError (Store × List Message) :=
  match st.agents.find? fun a => a.agent_id == aid && a.channel_id == cid with
  | none => .error (.notFoundError "Agent not found in channel")
  | some ag =>
    let page := (List.insertionSort seqLE (unreadList st cid aid ag)).take limit
    .ok (page.foldl (fun s m => markRead s aid m.message_id now) st, page)

/-- Enriched message shape returned by the query surfaces: sender, mention
usernames, and read_by entries of (username, read_at). -/
structure EnrichedMessage where
  message_id : String
  sender_agent_id : String
  sender_username : String
  content : String
  mentions : List String
  timestamp : Nat
  sequence_number : Nat
  read_by : List (String × Nat)
deriving DecidableEq

/-- Annotation computation of the REST get_messages endpoint
(src/mcp_server/api/in the package init file): mention usernames of the
message, and the read_by list joining read_status with agents (rows of
departed readers drop out of the join). -/
def enrichMessage (st : Store) (m : Message) (senderUsername : String) :
    EnrichedMessage :=
  { message_id := m.message_id
    sender_agent_id := m.agent_id
    sender_username := senderUsername
    content := m.content
    mentions := (st.mentions.filter fun x => x.message_id == m.message_id).map
      fun x => x.mentioned_username
    timestamp := m.created_at
    sequence_number := m.sequence_number
    read_by := (st.read_status.filter fun r => r.message_id == m.message_id).filterMap
      fun r => (st.agents.find? fun a => a.agent_id == r.agent_id).map
        fun a => (a.username, r.read_at) }

/-- Descending sequence order of the endpoint ORDER BY clause, on rows of the
join of messages with their sender. -/
def seqGEP (x y : Message × String) : Prop :=
  y.1.sequence_number ≤ x.1.sequence_number

instance : DecidableRel seqGEP := fun x _ => Nat.decLe _ x.1.sequence_number

instance : IsTotal (Message × String) seqGEP := ⟨fun _ _ => Nat.le_total _ _⟩

instance : IsTrans (Message × String) seqGEP := ⟨fun _ _ _ h1 h2 => Nat.le_trans h2 h1⟩

/-- Row set of the endpoint query: the messages of the channel inner-joined
with agents on the sender id (FROM messages m JOIN agents a ON m.agent_id =
a.agent_id WHERE m.channel_id = ?); messages of departed senders drop out of
the join. -/
def joined_rows (st : Store) (cid : String) : List (Message × String) :=
  st.messages.filterMap fun m =>
    if m.channel_id == cid then
      (st.agents.find? fun a => a.agent_id == m.agent_id).map fun a => (m, a.username)
    else none

/-- Translation of the REST endpoint get_messages
(src/mcp_server/api, package init file): SELECT the joined rows of the
channel, ORDER BY sequence_number DESC LIMIT limit, annotate each row, and
reverse the page into chronological order.  The handler runs only SELECT
statements, so the store comes back unchanged. -/
def get_messages (st : Store) (cid : String) (limit : Nat) :
    Store × List EnrichedMessage :=
  let page := (List.insertionSort seqGEP (joined_rows st cid)).take limit
  (st, (page.map fun x => enrichMessage st x.1 x.2).reverse)

/-- Primary-key wellformedness of the channels table. -/
def chan_ids_nodup (st : Store) : Prop :=
  (st.channels.map fun ch => ch.channel_id).Nodup

/-- Primary-key wellformedness of the messages table. -/
def msg_ids_nodup (st : Store) : Prop :=
  (st.messages.map fun m => m.message_id).Nodup

/-- Capacity invariant of spec section 3. -/
def capacityOK (st : Store) : Prop :=
  ∀ ch ∈ st.channels, agentCount st ch.channel_id ≤ ch.max_agents

/-- Membership operations whose interleavings claim C2 quantifies over. -/
inductive Op where
  | join (cid username role_description aid : String) (now : Nat)
  | leave (cid aid : String)

/-- Run one operation, keeping the prior store on failure (the failed
transaction commits nothing). -/
def applyOp (st : Store) : Op → Store
  | .join cid u r aid now =>
    match join_channel st cid u r aid now with
    | .ok (st2, _) => st2
    | .error _ => st
  | .leave cid aid =>
    match leave_channel st cid aid with
    | .ok st2 => st2
    | .error _ => st

/-- Run a sequence of operations one after another. -/
def applyOps (st : Store) (ops : List Op) : Store :=
  ops.foldl applyOp st

/-- C10: operational connections obtained through get_db never enable foreign
key enforcement (the pragma appears only in the init script and is per
connection), so the ON DELETE CASCADE rules of the schema are not applied at
runtime: a successful leave_channel removes exactly the agent row, leaving
every read_status, message and mention row in place, including the rows that
reference the removed agent. -/
theorem get_db_no_foreign_keys (st : Store) (cid aid : String) (st2 : Store)
    (h : leave_channel st cid aid = .ok st2) :
    get_db_foreign_keys = false ∧
      st2.read_status = st.read_status ∧
      st2.messages = st.messages ∧
      st2.mentions = st.mentions ∧
      st2.channels = st.channels ∧
      st2.agents = st.agents.filter fun a =>
        !(a.agent_id == aid && a.channel_id == cid) := by
  refine ⟨rfl, ?_⟩
  unfold leave_channel at h
  split at h
  · simp only [Except.ok.injEq] at h
    subst h
    simp [delete_agent_stmt, get_db_foreign_keys]
  · exact absurd h (by simp)

/-- Store used by the C10 witness: one channel, two agents, one message
authored by the first agent, a mention, and read_status rows of both
agents. -/
def stC10 : Store :=
  { channels := [⟨"ch", "general", none, 10, 0, true⟩],
    agents := [⟨"a1", "ch", "alice", "alice role descr", 0⟩,
               ⟨"a2", "ch", "bob", "bobby role descr", 0⟩],
    messages := [⟨"m1", "ch", "a1", "hello @bob", 1, 1⟩],
    mentions := [⟨"m1", "bob"⟩],
    read_status := [⟨"a1", "m1", 1⟩, ⟨"a2", "m1", 2⟩] }

/-- Result of alice leaving: only her agent row disappears. -/
def stC10after : Store :=
  { stC10 with agents := [⟨"a2", "ch", "bob", "bobby role descr", 0⟩] }

theorem get_db_no_foreign_keys_witness :
    get_db_foreign_keys = false ∧
      stC10after.read_status = stC10.read_status ∧
      stC10after.messages = stC10.messages ∧
      stC10after.mentions = stC10.mentions ∧
      stC10after.channels = stC10.channels ∧
      stC10after.agents = stC10.agents.filter fun a =>
        !(a.agent_id == "a1" && a.channel_id == "ch") :=
  get_db_no_foreign_keys stC10 "ch" "a1" stC10after rfl

/-- Store used by the C1 failing-input theorem: agent a1 has read_status
rows and authored a message with a mention. -/
def stC1 : Store :=
  { channels := [⟨"ch", "general", none, 10, 0, true⟩],
    agents := [⟨"a1", "ch", "alice", "alice role descr", 0⟩,
               ⟨"a2", "ch", "bob", "bobby role descr", 0⟩],
    messages := [⟨"m1", "ch", "a1", "hello @bob", 1, 1⟩],
    mentions := [⟨"m1", "bob"⟩],
    read_status := [⟨"a1", "m1", 1⟩, ⟨"a2", "m1", 2⟩] }

/-- Actual store after alice leaves in stC1. -/
def stC1after : Store :=
  { stC1 with agents := [⟨"a2", "ch", "bob", "bobby role descr", 0⟩] }

/-- C1: evaluation of the code at the failing input.  A successful leave does
keep every message the agent authored (and its mention rows) and touches no
row of another agent, but contrary to the claim it does not delete the
read_status rows of the leaving agent: a read_status row of a1 survives, and
the surviving read_status table differs from the one the claim predicts. -/
theorem leave_keeps_read_status_rows :
    leave_channel stC1 "ch" "a1" = .ok stC1after ∧
      stC1after.messages = stC1.messages ∧
      stC1after.mentions = stC1.mentions ∧
      stC1after.read_status = stC1.read_status ∧
      (∃ r ∈ stC1after.read_status, r.agent_id = "a1") ∧
      stC1after.read_status ≠ stC1.read_status.filter fun r =>
        !(r.agent_id == "a1") := by
  refine ⟨rfl, rfl, rfl, rfl, ⟨⟨"a1", "m1", 1⟩, by decide, rfl⟩, by decide⟩

/-- Outcome the claim C8 predicts: the error of the first violated check, in
the order username pattern, role description length, channel existence,
capacity, channel-scoped username uniqueness; none when all checks pass. -/
def joinSpecOutcome (st : Store) (cid u r : String) : Option SvcError :=
  if !(username_valid u) then
    some (.validationError
      "Username must be 3-50 alphanumeric characters (hyphens/underscores allowed)")
  else if r.length < 10 ∨ r.length > 200 then
    some (.validationError "Role description must be 10-200 characters")
  else
    match get_channel st cid with
    | none => some (.notFoundError "Channel not found")
    | some ch =>
      if agentCount st cid < ch.max_agents then
        if st.agents.any fun a => a.channel_id == cid && a.username == u then
          some (.conflictError "username already exists in this channel")
        else none
      else some (.capacityError "channel at maximum capacity")

/-- Error component of a service result. -/
def errOf {α : Type} : Except SvcError α → Option SvcError
  | .error e => some e
  | .ok _ => none

/-- C8: join_channel performs its checks in exactly the order the claim
lists: for every input the reported failure is the first violated check of
that order (and the call succeeds exactly when no check fails). -/
theorem join_channel_check_order (st : Store) (cid u r aid : String) (now : Nat) :
    errOf (join_channel st cid u r aid now) = joinSpecOutcome st cid u r := by
  by_cases h1 : username_valid u
  · by_cases h2 : r.length < 10 ∨ r.length > 200
    · simp [join_channel, joinSpecOutcome, h1, h2, errOf]
    · cases hch : get_channel st cid with
      | none =>
        simp [join_channel, joinSpecOutcome, validate_channel_capacity, h1, h2,
          hch, errOf]
      | some ch =>
        by_cases h4 : agentCount st cid < ch.max_agents
        · by_cases h5 : (st.agents.any fun a =>
              a.channel_id == cid && a.username == u) = true
          · simp [join_channel, joinSpecOutcome, validate_channel_capacity, h1,
              h2, hch, h4, h5, errOf]
          · simp [join_channel, joinSpecOutcome, validate_channel_capacity, h1,
              h2, hch, h4, h5, errOf]
        · simp [join_channel, joinSpecOutcome, validate_channel_capacity, h1,
            h2, hch, h4, errOf]
  · simp [join_channel, joinSpecOutcome, h1, errOf]

lemma validate_channel_capacity_ok {st : Store} {cid : String}
    (h : validate_channel_capacity st cid = .ok ()) :
    ∃ ch, get_channel st cid = some ch ∧ agentCount st cid < ch.max_agents := by
  unfold validate_channel_capacity at h
  split at h
  · exact absurd h (by simp)
  · rename_i ch hch
    split at h
    · exact ⟨ch, hch, by assumption⟩
    · exact absurd h (by simp)

lemma join_channel_ok {st : Store} {cid u r aid : String} {now : Nat}
    {st2 : Store} {ag : Agent}
    (h : join_channel st cid u r aid now = .ok (st2, ag)) :
    ∃ ch, get_channel st cid = some ch ∧ agentCount st cid < ch.max_agents ∧
      st2.agents = st.agents ++ [ag] ∧ ag.channel_id = cid ∧
      st2.channels = st.channels := by
  unfold join_channel at h
  split at h
  · exact absurd h (by simp)
  · split at h
    · exact absurd h (by simp)
    · split at h
      · exact absurd h (by simp)
      · rename_i ch hch
        split at h
        · exact absurd h (by simp)
        · rename_i val hcap
          split at h
          · exact absurd h (by simp)
          · simp only [Except.ok.injEq, Prod.mk.injEq] at h
            obtain ⟨h1, h2⟩ := h
            subst h1
            subst h2
            cases val
            obtain ⟨ch2, hch2, hlt⟩ := validate_channel_capacity_ok hcap
            rw [hch] at hch2
            injection hch2 with hcheq
            exact ⟨ch, hch, by rw [hcheq]; exact hlt, rfl, rfl, rfl⟩

lemma leave_channel_ok {st : Store} {cid aid : String} {st2 : Store}
    (h : leave_channel st cid aid = .ok st2) :
    st2.agents = st.agents.filter (fun a =>
        !(a.agent_id == aid && a.channel_id == cid)) ∧
      st2.channels = st.channels := by
  unfold leave_channel at h
  split at h
  · simp only [Except.ok.injEq] at h
    subst h
    simp [delete_agent_stmt, get_db_foreign_keys]
  · exact absurd h (by simp)

lemma agentCount_append_one (st : Store) (ag : Agent) (x : String) :
    agentCount { st with agents := st.agents ++ [ag] } x
      = agentCount st x + (if ag.channel_id == x then 1 else 0) := by
  unfold agentCount
  simp only [List.filter_append, List.length_append]
  cases h : (ag.channel_id == x) <;> simp [List.filter, h]

lemma applyOp_capacity {st : Store} (hnd : chan_ids_nodup st)
    (hcap : capacityOK st) (op : Op) :
    capacityOK (applyOp st op) ∧ chan_ids_nodup (applyOp st op) := by
  cases op with
  | join cid u r aid now =>
    cases hj : join_channel st cid u r aid now with
    | error e =>
      simp only [applyOp, hj]
      exact ⟨hcap, hnd⟩
    | ok res =>
      obtain ⟨st2, ag⟩ := res
      simp only [applyOp, hj]
      obtain ⟨ch, hch, hlt, hagents, hagcid, hchannels⟩ := join_channel_ok hj
      constructor
      · intro ch2 hch2
        rw [hchannels] at hch2
        have hcount : agentCount st2 ch2.channel_id
            = agentCount st ch2.channel_id
              + (if ag.channel_id == ch2.channel_id then 1 else 0) := by
          have h2 := agentCount_append_one st ag ch2.channel_id
          unfold agentCount at h2 ⊢
          rw [hagents]
          simpa using h2
        by_cases hx : ch2.channel_id = cid
        · have hchmem : ch ∈ st.channels := List.mem_of_find?_eq_some hch
          have hcheq : ch.channel_id = cid := by
            have := List.find?_some hch
            simpa using this
          have heq2 : ch2 = ch :=
            List.inj_on_of_nodup_map hnd hch2 hchmem (by rw [hx, hcheq])
          subst heq2
          rw [hcount]
          have hbeq : (ag.channel_id == ch2.channel_id) = true := by
            simp [hagcid, hx]
          rw [hbeq]
          simp only [if_true]
          rw [hx]
          omega
        · rw [hcount]
          have hbeq : (ag.channel_id == ch2.channel_id) = false := by
            simp only [beq_eq_false_iff_ne, ne_eq, hagcid]
            intro hcontra
            exact hx hcontra.symm
          rw [hbeq]
          simp only [Bool.false_eq_true, if_false, Nat.add_zero]
          exact hcap ch2 hch2
      · unfold chan_ids_nodup
        rw [hchannels]
        exact hnd
  | leave cid aid =>
    cases hl : leave_channel st cid aid with
    | error e =>
      simp only [applyOp, hl]
      exact ⟨hcap, hnd⟩
    | ok st2 =>
      simp only [applyOp, hl]
      obtain ⟨hagents, hchannels⟩ := leave_channel_ok hl
      constructor
      · intro ch2 hch2
        rw [hchannels] at hch2
        have hsub : agentCount st2 ch2.channel_id ≤ agentCount st ch2.channel_id := by
          unfold agentCount
          rw [hagents]
          exact List.Sublist.length_le
            (List.Sublist.filter _ (List.filter_sublist _))
        exact Nat.le_trans hsub (hcap ch2 hch2)
      · unfold chan_ids_nodup
        rw [hchannels]
        exact hnd

lemma applyOps_capacity : ∀ (ops : List Op) (st : Store),
    chan_ids_nodup st → capacityOK st →
    capacityOK (applyOps st ops) ∧ chan_ids_nodup (applyOps st ops) := by
  intro ops
  induction ops with
  | nil =>
    intro st hnd hcap
    exact ⟨hcap, hnd⟩
  | cons op rest ih =>
    intro st hnd hcap
    have h1 := applyOp_capacity hnd hcap op
    have h2 := ih (applyOp st op) h1.2 h1.1
    simpa [applyOps, List.foldl_cons] using h2

/-- C2: starting from a store whose channel ids are distinct and whose agent
counts respect max_agents, any sequence of join and leave operations keeps
every channel at or below its max_agents; a join aimed at a channel whose
agent count equals max_agents (with well-formed username and role
description) fails with CapacityError (channel at maximum capacity) and
inserts no agent row. -/
theorem capacity_never_exceeded (st : Store)
    (hnd : chan_ids_nodup st) (hcap : capacityOK st) :
    (∀ ops : List Op, capacityOK (applyOps st ops)) ∧
    (∀ cid u r aid now ch, get_channel st cid = some ch →
      agentCount st cid = ch.max_agents →
      username_valid u = true → ¬(r.length < 10 ∨ r.length > 200) →
      join_channel st cid u r aid now
          = .error (.capacityError "channel at maximum capacity") ∧
        applyOp st (.join cid u r aid now) = st) := by
  constructor
  · intro ops
    exact (applyOps_capacity ops st hnd hcap).1
  · intro cid u r aid now ch hch hfull hu hr
    have hjoin : join_channel st cid u r aid now
        = .error (.capacityError "channel at maximum capacity") := by
      simp [join_channel, validate_channel_capacity, hu, hch, hfull, hr]
    exact ⟨hjoin, by simp only [applyOp, hjoin]⟩

/-- Store of the C2 witness: a channel with capacity 2 holding two agents. -/
def stC2 : Store :=
  { channels := [⟨"c", "capacity-test", none, 2, 0, true⟩],
    agents := [⟨"a1", "c", "agent1", "Test agent 1 role", 0⟩,
               ⟨"a2", "c", "agent2", "Test agent 2 role", 0⟩],
    messages := [], mentions := [], read_status := [] }

theorem capacity_never_exceeded_witness :
    capacityOK (applyOps stC2 [.join "c" "agent3" "Test agent role" "a3" 1,
        .leave "c" "a1", .join "c" "carol" "Carol role descr" "a4" 2]) ∧
    join_channel stC2 "c" "agent3" "Test agent role" "a3" 1
      = .error (.capacityError "channel at maximum capacity") := by
  have h := capacity_never_exceeded stC2 (by unfold chan_ids_nodup; decide)
    (by unfold capacityOK; decide)
  exact ⟨h.1 _, (h.2 "c" "agent3" "Test agent role" "a3" 1
    ⟨"c", "capacity-test", none, 2, 0, true⟩ (by decide) (by decide) (by decide)
    (by decide)).1⟩

/-- C3: a successful send assigns the sequence number max existing plus one
(hence 1 in a channel with no messages) and, in one step, inserts exactly one
message row, one mention row per resolved mentioned username, and one
read_status row for the sending agent. -/
theorem send_message_success (st : Store) (cid aid content mid : String)
    (now : Nat)
    (hlen : 1 ≤ content.length ∧ content.length ≤ 4000)
    (hres : ∀ u ∈ parse_mentions content,
      (st.agents.any fun a => a.channel_id == cid && a.username == u) = true) :
    ∃ st2 m, send_message st cid aid content mid now = .ok (st2, m) ∧
      m.sequence_number = max_sequence_number st cid + 1 ∧
      ((st.messages.filter fun x => x.channel_id == cid) = [] →
        m.sequence_number = 1) ∧
      st2.messages = st.messages ++ [m] ∧
      st2.mentions = st.mentions
        ++ (parse_mentions content).eraseDups.map (fun u => ⟨mid, u⟩) ∧
      st2.read_status = st.read_status ++ [⟨aid, mid, now⟩] ∧
      st2.agents = st.agents ∧ st2.channels = st.channels := by
  have hnot : ¬ (content.length < 1 ∨ content.length > 4000) := by omega
  have hms : ((parse_mentions content).any fun u =>
      !(st.agents.any fun a => a.channel_id == cid && a.username == u)) = false := by
    rw [List.any_eq_false]
    intro u hu
    simp [hres u hu]
  have heq : send_message st cid aid content mid now = .ok
      (⟨st.channels, st.agents,
        st.messages ++ [⟨mid, cid, aid, content,
          get_next_sequence_number st cid, now⟩],
        st.mentions ++ (parse_mentions content).eraseDups.map (fun u => ⟨mid, u⟩),
        st.read_status ++ [⟨aid, mid, now⟩]⟩,
      ⟨mid, cid, aid, content, get_next_sequence_number st cid, now⟩) := by
    unfold send_message
    rw [if_neg hnot]
    simp only [hms, Bool.false_eq_true, if_false]
  refine ⟨_, _, heq, rfl, ?_, rfl, rfl, rfl, rfl, rfl⟩
  intro hempty
  show get_next_sequence_number st cid = 1
  unfold get_next_sequence_number max_sequence_number
  rw [hempty]
  rfl

/-- Store of the C3 witness: channel c with agents alice and bob, one prior
message of sequence number 4. -/
def stC3 : Store :=
  { channels := [⟨"c", "general", none, 10, 0, true⟩],
    agents := [⟨"a1", "c", "alice", "alice role descr", 0⟩,
               ⟨"a2", "c", "bob", "bobby role descr", 0⟩],
    messages := [⟨"m1", "c", "a1", "hello", 4, 1⟩],
    mentions := [],
    read_status := [⟨"a1", "m1", 1⟩] }

theorem send_message_success_witness :
    ∃ st2 m, send_message stC3 "c" "a1" "hey @bob" "m2" 7 = .ok (st2, m) ∧
      m.sequence_number = max_sequence_number stC3 "c" + 1 ∧
      ((stC3.messages.filter fun x => x.channel_id == "c") = [] →
        m.sequence_number = 1) ∧
      st2.messages = stC3.messages ++ [m] ∧
      st2.mentions = stC3.mentions
        ++ (parse_mentions "hey @bob").eraseDups.map (fun u => ⟨"m2", u⟩) ∧
      st2.read_status = stC3.read_status ++ [⟨"a1", "m2", 7⟩] ∧
      st2.agents = stC3.agents ∧ st2.channels = stC3.channels :=
  send_message_success stC3 "c" "a1" "hey @bob" "m2" 7 (by decide) (by decide)

/-- C6 (amended): a send whose content is within 1-4000 characters and
mentions a username that is no current member of the channel fails with
DependencyError (mentioned username not found in channel), and being a
failure it persists nothing: no ok result with a mutated store exists. -/
theorem send_bad_mention_dependency_error (st : Store)
    (cid aid content mid : String) (now : Nat)
    (hlen : 1 ≤ content.length ∧ content.length ≤ 4000)
    (hbad : ∃ u ∈ parse_mentions content,
      (st.agents.any fun a => a.channel_id == cid && a.username == u) = false) :
    send_message st cid aid content mid now
        = .error (.dependencyError "mentioned username not found in channel") ∧
      ∀ st2 m, ¬ send_message st cid aid content mid now = .ok (st2, m) := by
  have hnot : ¬ (content.length < 1 ∨ content.length > 4000) := by omega
  obtain ⟨u, hu, hnm⟩ := hbad
  have hms : ((parse_mentions content).any fun u =>
      !(st.agents.any fun a => a.channel_id == cid && a.username == u)) = true := by
    rw [List.any_eq_true]
    exact ⟨u, hu, by simp [hnm]⟩
  have herr : send_message st cid aid content mid now
      = .error (.dependencyError "mentioned username not found in channel") := by
    unfold send_message
    rw [if_neg hnot]
    simp only [hms, if_true]
  refine ⟨herr, fun st2 m hok => ?_⟩
  rw [herr] at hok
  exact absurd hok (by simp)

/-- Store of the C6 witness: channel c with the lone agent alice. -/
def stC6w : Store :=
  { channels := [⟨"c", "general", none, 10, 0, true⟩],
    agents := [⟨"a1", "c", "alice", "alice role descr", 0⟩],
    messages := [], mentions := [], read_status := [] }

theorem send_bad_mention_dependency_error_witness :
    send_message stC6w "c" "a1" "hi @ghost" "m1" 3
      = .error (.dependencyError "mentioned username not found in channel") :=
  (send_bad_mention_dependency_error stC6w "c" "a1" "hi @ghost" "m1" 3
    (by decide) ⟨"ghost", by decide, by decide⟩).1

/-- Store of the C6 counterexample: channel c with no member at all. -/
def stC6 : Store :=
  { channels := [⟨"c", "general", none, 10, 0, true⟩],
    agents := [], messages := [], mentions := [], read_status := [] }

/-- Content of 4001 characters that carries a mention token. -/
def badContentC6 : String := String.mk ('@' :: 'g' :: List.replicate 3999 'h')

/-- C6 counterexample: the claim quantifies over every content string, but a
content longer than 4000 characters that mentions a non-member fails with
ValidationError, not DependencyError, because the length check runs before
mention resolution. -/
theorem send_bad_mention_not_always_dependency_error :
    (parse_mentions badContentC6 ≠ [] ∧
      ∀ u ∈ parse_mentions badContentC6,
        (stC6.agents.any fun a => a.channel_id == "c" && a.username == u)
          = false) ∧
    send_message stC6 "c" "a1" badContentC6 "m1" 5
      = .error (.validationError "Message content must be 1-4000 characters") := by
  have hlen : badContentC6.length = 4001 := by
    unfold badContentC6
    rw [String.length_mk]
    simp only [List.length_cons, List.length_replicate]
  have pmGo_at_cons : ∀ rest : List Char,
      pmGo ('@' :: rest) none = pmGo rest (some []) := by
    intro rest
    simp [pmGo]
  refine ⟨⟨?_, ?_⟩, ?_⟩
  · unfold parse_mentions parseMentionsL badContentC6
    show List.map (fun l => String.mk l)
      (pmGo ('@' :: 'g' :: List.replicate 3999 'h') none) ≠ []
    rw [pmGo_at_cons]
    rw [pmGo_some]
    rw [List.takeWhile_cons]
    rw [if_pos (by decide : isMentionChar 'g' = true)]
    rw [if_neg (by
      intro h
      rw [List.reverse_nil, List.nil_append] at h
      exact List.cons_ne_nil _ _ h)]
    rw [List.singleton_append, List.map_cons]
    exact List.cons_ne_nil _ _
  · intro u hu
    rfl
  · unfold send_message
    rw [if_pos (Or.inr (by omega))]

lemma mem_unreadList {st : Store} {cid aid : String} {ag : Agent} {m : Message} :
    m ∈ unreadList st cid aid ag ↔
      m ∈ st.messages ∧ m.channel_id = cid ∧ ag.joined_at < m.created_at ∧
        hasRead st aid m.message_id = false := by
  unfold unreadList
  simp [List.mem_filter, Bool.and_eq_true, beq_iff_eq, decide_eq_true_eq,
    Bool.not_eq_true', and_assoc]

lemma hasRead_append_rows (st : Store) (rows : List ReadStatus) (aid mid : String) :
    hasRead { st with read_status := st.read_status ++ rows } aid mid
      = (hasRead st aid mid
          || rows.any fun r => r.agent_id == aid && r.message_id == mid) := by
  unfold hasRead
  simp [List.any_append]

lemma markRead_noop {st : Store} {aid mid : String} {now : Nat}
    (h : hasRead st aid mid = true) : markRead st aid mid now = st := by
  unfold markRead
  rw [h]
  rfl

lemma foldl_markRead (aid : String) (now : Nat) :
    ∀ (page : List Message) (st : Store),
    (∀ m ∈ page, hasRead st aid m.message_id = false) →
    (page.map fun m => m.message_id).Nodup →
    page.foldl (fun s m => markRead s aid m.message_id now) st
      = { st with read_status := st.read_status
          ++ page.map fun m => (⟨aid, m.message_id, now⟩ : ReadStatus) } := by
  intro page
  induction page with
  | nil =>
    intro st h1 h2
    simp
  | cons m rest ih =>
    intro st h1 h2
    rw [List.foldl_cons]
    have hm : hasRead st aid m.message_id = false := h1 m (by simp)
    have hstep : markRead st aid m.message_id now
        = { st with read_status := st.read_status
            ++ [(⟨aid, m.message_id, now⟩ : ReadStatus)] } := by
      unfold markRead
      rw [hm]
      rfl
    rw [hstep]
    rw [List.map_cons] at h2
    have hnodup := List.nodup_cons.mp h2
    have h1' : ∀ m2 ∈ rest, hasRead { st with read_status := st.read_status
        ++ [(⟨aid, m.message_id, now⟩ : ReadStatus)] } aid m2.message_id = false := by
      intro m2 hm2
      rw [hasRead_append_rows]
      have hold := h1 m2 (List.mem_cons_of_mem _ hm2)
      have hne : ¬ m.message_id = m2.message_id := by
        intro hcontra
        exact hnodup.1 (by
          rw [hcontra]
          exact List.mem_map_of_mem _ hm2)
      simp [hold, hne]
    have h2' : (rest.map fun m => m.message_id).Nodup := hnodup.2
    rw [ih _ h1' h2']
    simp [List.append_assoc]

lemma unreadList_ids_nodup {st : Store} {cid aid : String} {ag : Agent}
    (hnd : msg_ids_nodup st) :
    ((unreadList st cid aid ag).map fun m => m.message_id).Nodup := by
  unfold msg_ids_nodup at hnd
  unfold unreadList
  exact List.Nodup.sublist
    (List.Sublist.map (fun m : Message => m.message_id)
      (List.filter_sublist st.messages)) hnd

/-- Page selected by getNew: the unread post-join messages sorted ascending
by sequence number, truncated to the limit. -/
def pageOf (st : Store) (cid aid : String) (ag : Agent) (limit : Nat) :
    List Message :=
  (List.insertionSort seqLE (unreadList st cid aid ag)).take limit

/-- Read rows inserted for a returned page. -/
def newReadRows (aid : String) (now : Nat) (page : List Message) :
    List ReadStatus :=
  page.map fun m => ⟨aid, m.message_id, now⟩

/-- Store after the read-marking side effect of a page retrieval. -/
def markedStore (st : Store) (aid : String) (now : Nat) (page : List Message) :
    Store :=
  { st with read_status := st.read_status ++ newReadRows aid now page }

lemma hasRead_markedStore (st : Store) (aid : String) (now : Nat)
    (page : List Message) (aid2 mid : String) :
    hasRead (markedStore st aid now page) aid2 mid
      = (hasRead st aid2 mid
          || (newReadRows aid now page).any fun r =>
              r.agent_id == aid2 && r.message_id == mid) := by
  unfold markedStore
  exact hasRead_append_rows st _ aid2 mid

lemma pageOf_subset {st : Store} {cid aid : String} {ag : Agent} {limit : Nat} :
    ∀ m ∈ pageOf st cid aid ag limit, m ∈ unreadList st cid aid ag := by
  intro m hm
  exact (List.perm_insertionSort seqLE _).mem_iff.mp
    ((List.take_sublist _ _).mem hm)

lemma pageOf_ids_nodup {st : Store} {cid aid : String} {ag : Agent}
    {limit : Nat} (hnd : msg_ids_nodup st) :
    ((pageOf st cid aid ag limit).map fun m => m.message_id).Nodup := by
  have hsrt : ((List.insertionSort seqLE (unreadList st cid aid ag)).map
      fun m => m.message_id).Nodup :=
    ((List.perm_insertionSort seqLE _).map fun m : Message => m.message_id).symm.nodup
      (unreadList_ids_nodup hnd)
  exact List.Nodup.sublist
    (List.Sublist.map (fun m : Message => m.message_id) (List.take_sublist _ _)) hsrt

lemma get_new_messages_run (st : Store) (cid aid : String) (limit now : Nat)
    (ag : Agent)
    (hag : (st.agents.find? fun a => a.agent_id == aid && a.channel_id == cid)
      = some ag)
    (hnd : msg_ids_nodup st) :
    get_new_messages st cid aid limit now = .ok
      (markedStore st aid now (pageOf st cid aid ag limit),
        pageOf st cid aid ag limit) := by
  have hunread : ∀ m ∈ pageOf st cid aid ag limit,
      hasRead st aid m.message_id = false := by
    intro m hm
    exact (mem_unreadList.mp (pageOf_subset m hm)).2.2.2
  unfold get_new_messages
  rw [hag]
  dsimp only
  rw [show List.take limit (List.insertionSort seqLE (unreadList st cid aid ag))
      = pageOf st cid aid ag limit from rfl]
  rw [foldl_markRead aid now _ st hunread (pageOf_ids_nodup hnd)]
  unfold markedStore newReadRows
  rfl

/-- Store of the C4 counterexample: bob sent a message at time 3, alice
joined at time 5 and has no read_status row for it. -/
def stC4 : Store :=
  { channels := [⟨"c", "general", none, 10, 0, true⟩],
    agents := [⟨"b", "c", "bob", "bobby role descr", 0⟩,
               ⟨"a", "c", "alice", "alice role descr", 5⟩],
    messages := [⟨"m1", "c", "b", "early bird", 1, 3⟩],
    mentions := [],
    read_status := [⟨"b", "m1", 3⟩] }

/-- C4 counterexample: the claim says getNew returns exactly the messages
with no read_status row for the agent, but the code also filters by join
time: alice has an unread message in the channel, yet getNew returns the
empty list because the message predates her join. -/
theorem get_new_messages_misses_unread_before_join :
    get_new_messages stC4 "c" "a" 50 9 = .ok (stC4, []) ∧
      (∃ m ∈ stC4.messages, m.channel_id = "c" ∧
        hasRead stC4 "a" m.message_id = false) := by
  constructor
  · rfl
  · exact ⟨⟨"m1", "c", "b", "early bird", 1, 3⟩, by decide, rfl, by decide⟩

/-- C4 (amended): for a member agent, getNew returns, ascending by sequence
number and truncated to the first limit, exactly those messages of the
channel that were created after the agent joined and have no read_status row
for the agent — in particular, when the limit truncates, every returned
message has a sequence number at most that of every omitted unread post-join
message, so the page is the first limit of them — and it creates a
read_status row for the agent for each returned message while touching
nothing else. -/
theorem get_new_messages_spec (st : Store) (cid aid : String) (limit now : Nat)
    (ag : Agent)
    (hag : (st.agents.find? fun a => a.agent_id == aid && a.channel_id == cid)
      = some ag)
    (hnd : msg_ids_nodup st) :
    ∃ st2 page, get_new_messages st cid aid limit now = .ok (st2, page) ∧
      List.Sorted seqLE page ∧
      (∀ m ∈ page, m ∈ st.messages ∧ m.channel_id = cid ∧
        ag.joined_at < m.created_at ∧ hasRead st aid m.message_id = false) ∧
      page.length = min limit (unreadList st cid aid ag).length ∧
      ((unreadList st cid aid ag).length ≤ limit →
        ∀ m ∈ st.messages, m.channel_id = cid → ag.joined_at < m.created_at →
          hasRead st aid m.message_id = false → m ∈ page) ∧
      (∀ m ∈ page, ∀ m2 ∈ st.messages, m2.channel_id = cid →
        ag.joined_at < m2.created_at → hasRead st aid m2.message_id = false →
        m2 ∉ page → m.sequence_number ≤ m2.sequence_number) ∧
      st2.read_status = st.read_status
        ++ page.map (fun m => (⟨aid, m.message_id, now⟩ : ReadStatus)) ∧
      st2.messages = st.messages ∧ st2.agents = st.agents ∧
      st2.channels = st.channels ∧ st2.mentions = st.mentions := by
  have hperm : List.Perm (List.insertionSort seqLE (unreadList st cid aid ag))
      (unreadList st cid aid ag) := List.perm_insertionSort _ _
  refine ⟨_, _, get_new_messages_run st cid aid limit now ag hag hnd,
    ?_, ?_, ?_, ?_, ?_, rfl, rfl, rfl, rfl, rfl⟩
  · exact List.Pairwise.sublist (List.take_sublist _ _)
      (List.sorted_insertionSort seqLE _)
  · intro m hm
    exact mem_unreadList.mp (pageOf_subset m hm)
  · unfold pageOf
    rw [List.length_take, hperm.length_eq]
  · intro hall m hmem hchan hjoin hunread
    have hin : m ∈ unreadList st cid aid ag :=
      mem_unreadList.mpr ⟨hmem, hchan, hjoin, hunread⟩
    unfold pageOf
    have hfull : (List.insertionSort seqLE (unreadList st cid aid ag)).take limit
        = List.insertionSort seqLE (unreadList st cid aid ag) :=
      List.take_of_length_le (by rw [hperm.length_eq]; exact hall)
    rw [hfull]
    exact hperm.mem_iff.mpr hin
  · intro m hm m2 hmem2 hchan2 hjoin2 hunread2 hnot2
    have hm2s : m2 ∈ List.insertionSort seqLE (unreadList st cid aid ag) :=
      hperm.mem_iff.mpr (mem_unreadList.mpr ⟨hmem2, hchan2, hjoin2, hunread2⟩)
    have hsplit := List.take_append_drop limit
      (List.insertionSort seqLE (unreadList st cid aid ag))
    have hpw := List.pairwise_append.mp
      (show ((List.insertionSort seqLE (unreadList st cid aid ag)).take limit
          ++ (List.insertionSort seqLE (unreadList st cid aid ag)).drop limit).Pairwise
            seqLE from by
        rw [hsplit]
        exact List.sorted_insertionSort seqLE _)
    have hm2d : m2 ∈ (List.insertionSort seqLE (unreadList st cid aid ag)).drop limit := by
      have hm2td : m2 ∈ (List.insertionSort seqLE (unreadList st cid aid ag)).take limit
          ++ (List.insertionSort seqLE (unreadList st cid aid ag)).drop limit := by
        rw [hsplit]
        exact hm2s
      rcases List.mem_append.mp hm2td with h | h
      · exact absurd h hnot2
      · exact h
    exact hpw.2.2 m hm m2 hm2d

/-- Store of the C4 witness: alice joined at 0; bob wrote two messages after
that, only the first of which alice has read. -/
def stC4w : Store :=
  { channels := [⟨"c", "general", none, 10, 0, true⟩],
    agents := [⟨"a", "c", "alice", "alice role descr", 0⟩,
               ⟨"b", "c", "bob", "bobby role descr", 0⟩],
    messages := [⟨"m1", "c", "b", "one", 1, 1⟩, ⟨"m2", "c", "b", "two", 2, 2⟩],
    mentions := [],
    read_status := [⟨"b", "m1", 1⟩, ⟨"b", "m2", 2⟩, ⟨"a", "m1", 4⟩] }

theorem get_new_messages_spec_witness :
    ∃ st2 page, get_new_messages stC4w "c" "a" 50 9 = .ok (st2, page) ∧
      List.Sorted seqLE page ∧
      (∀ m ∈ page, m ∈ stC4w.messages ∧ m.channel_id = "c" ∧
        (⟨"a", "c", "alice", "alice role descr", 0⟩ : Agent).joined_at
          < m.created_at ∧ hasRead stC4w "a" m.message_id = false) ∧
      page.length = min 50 (unreadList stC4w "c" "a"
        ⟨"a", "c", "alice", "alice role descr", 0⟩).length ∧
      ((unreadList stC4w "c" "a"
          ⟨"a", "c", "alice", "alice role descr", 0⟩).length ≤ 50 →
        ∀ m ∈ stC4w.messages, m.channel_id = "c" →
          (⟨"a", "c", "alice", "alice role descr", 0⟩ : Agent).joined_at
            < m.created_at →
          hasRead stC4w "a" m.message_id = false → m ∈ page) ∧
      (∀ m ∈ page, ∀ m2 ∈ stC4w.messages, m2.channel_id = "c" →
        (⟨"a", "c", "alice", "alice role descr", 0⟩ : Agent).joined_at
          < m2.created_at → hasRead stC4w "a" m2.message_id = false →
        m2 ∉ page → m.sequence_number ≤ m2.sequence_number) ∧
      st2.read_status = stC4w.read_status
        ++ page.map (fun m => (⟨"a", m.message_id, 9⟩ : ReadStatus)) ∧
      st2.messages = stC4w.messages ∧ st2.agents = stC4w.agents ∧
      st2.channels = stC4w.channels ∧ st2.mentions = stC4w.mentions :=
  get_new_messages_spec stC4w "c" "a" 50 9
    ⟨"a", "c", "alice", "alice role descr", 0⟩ (by decide)
    (by unfold msg_ids_nodup; decide)

/-- C5 (amended): when getNew returns every unread post-join message (their
count is at most the limit), an immediately following getNew with no send in
between returns the empty list and leaves the store untouched; and re-marking
an already-read message is a no-op, never an error. -/
theorem get_new_twice_empty (st : Store) (cid aid : String)
    (limit limit2 now now2 : Nat) (ag : Agent)
    (hag : (st.agents.find? fun a => a.agent_id == aid && a.channel_id == cid)
      = some ag)
    (hnd : msg_ids_nodup st)
    (hall : (unreadList st cid aid ag).length ≤ limit) :
    ∃ st1 page1, get_new_messages st cid aid limit now = .ok (st1, page1) ∧
      get_new_messages st1 cid aid limit2 now2 = .ok (st1, []) ∧
      (∀ mid, hasRead st1 aid mid = true → markRead st1 aid mid now2 = st1) := by
  have hfull : pageOf st cid aid ag limit
      = List.insertionSort seqLE (unreadList st cid aid ag) := by
    unfold pageOf
    exact List.take_of_length_le
      (by rw [(List.perm_insertionSort seqLE _).length_eq]; exact hall)
  refine ⟨markedStore st aid now (pageOf st cid aid ag limit), _,
    get_new_messages_run st cid aid limit now ag hag hnd, ?_, ?_⟩
  · have hag1 : ((markedStore st aid now (pageOf st cid aid ag limit)).agents.find?
        fun a => a.agent_id == aid && a.channel_id == cid) = some ag := hag
    have hnd1 : msg_ids_nodup (markedStore st aid now (pageOf st cid aid ag limit)) :=
      hnd
    have hempty : unreadList (markedStore st aid now (pageOf st cid aid ag limit))
        cid aid ag = [] := by
      unfold unreadList
      rw [List.filter_eq_nil_iff]
      intro m hm
      intro hpred
      rw [Bool.and_eq_true, Bool.and_eq_true] at hpred
      obtain ⟨⟨hchan, hjoin⟩, hunread1⟩ := hpred
      rw [Bool.not_eq_true'] at hunread1
      have hchan2 : m.channel_id = cid := by simpa using hchan
      have hjoin2 : ag.joined_at < m.created_at := by simpa using hjoin
      have hm2 : m ∈ st.messages := hm
      have hread1 : hasRead (markedStore st aid now (pageOf st cid aid ag limit))
          aid m.message_id = true := by
        rw [hasRead_markedStore]
        cases hr : hasRead st aid m.message_id with
        | true => rfl
        | false =>
          have hmu : m ∈ unreadList st cid aid ag :=
            mem_unreadList.mpr ⟨hm2, hchan2, hjoin2, hr⟩
          have hmp : m ∈ pageOf st cid aid ag limit := by
            rw [hfull]
            exact (List.perm_insertionSort seqLE _).mem_iff.mpr hmu
          have hany : ((newReadRows aid now (pageOf st cid aid ag limit)).any
              fun r => r.agent_id == aid && r.message_id == m.message_id)
                = true := by
            rw [List.any_eq_true]
            refine ⟨⟨aid, m.message_id, now⟩, ?_, by simp⟩
            unfold newReadRows
            exact List.mem_map_of_mem _ hmp
          rw [hany]
          simp
      rw [hread1] at hunread1
      exact absurd hunread1 (by decide)
    have hrun2 := get_new_messages_run _ cid aid limit2 now2 ag hag1 hnd1
    have hpage2 : pageOf (markedStore st aid now (pageOf st cid aid ag limit))
        cid aid ag limit2 = [] := by
      rw [show pageOf (markedStore st aid now (pageOf st cid aid ag limit))
            cid aid ag limit2
          = List.take limit2 (List.insertionSort seqLE
            (unreadList (markedStore st aid now (pageOf st cid aid ag limit))
              cid aid ag)) from rfl]
      rw [hempty]
      simp
    rw [hpage2] at hrun2
    simpa [newReadRows, markedStore] using hrun2
  · intro mid h
    exact markRead_noop h

/-- Store of the C5 witness: two unread messages for alice, within limit. -/
def stC5w : Store :=
  { channels := [⟨"c", "general", none, 10, 0, true⟩],
    agents := [⟨"a", "c", "alice", "alice role descr", 0⟩,
               ⟨"b", "c", "bob", "bobby role descr", 0⟩],
    messages := [⟨"m1", "c", "b", "one", 1, 1⟩, ⟨"m2", "c", "b", "two", 2, 2⟩],
    mentions := [],
    read_status := [⟨"b", "m1", 1⟩, ⟨"b", "m2", 2⟩] }

theorem get_new_twice_empty_witness :
    ∃ st1 page1, get_new_messages stC5w "c" "a" 50 9 = .ok (st1, page1) ∧
      get_new_messages st1 "c" "a" 50 10 = .ok (st1, []) ∧
      (∀ mid, hasRead st1 "a" mid = true → markRead st1 "a" mid 10 = st1) :=
  get_new_twice_empty stC5w "c" "a" 50 50 9 10
    ⟨"a", "c", "alice", "alice role descr", 0⟩ (by decide)
    (by unfold msg_ids_nodup; decide) (by decide)

/-- Store of the C5 counterexample: two unread messages for alice. -/
def stC5 : Store :=
  { channels := [⟨"c", "general", none, 10, 0, true⟩],
    agents := [⟨"a", "c", "alice", "alice role descr", 0⟩,
               ⟨"b", "c", "bob", "bobby role descr", 0⟩],
    messages := [⟨"m1", "c", "b", "one", 1, 1⟩, ⟨"m2", "c", "b", "two", 2, 2⟩],
    mentions := [],
    read_status := [⟨"b", "m1", 1⟩, ⟨"b", "m2", 2⟩] }

/-- Store after the first getNew with limit 1: only m1 marked read. -/
def stC5a : Store :=
  { stC5 with read_status := [⟨"b", "m1", 1⟩, ⟨"b", "m2", 2⟩, ⟨"a", "m1", 5⟩] }

/-- Store after the second getNew with limit 1: m2 marked read too. -/
def stC5b : Store :=
  { stC5 with read_status :=
      [⟨"b", "m1", 1⟩, ⟨"b", "m2", 2⟩, ⟨"a", "m1", 5⟩, ⟨"a", "m2", 6⟩] }

/-- C5 counterexample: the claim promises an empty second call for every
limit, but with limit 1 and two unread messages the first call returns only
m1, and the second call, with no send in between, returns m2 rather than the
empty list. -/
theorem get_new_twice_not_always_empty :
    get_new_messages stC5 "c" "a" 1 5
        = .ok (stC5a, [⟨"m1", "c", "b", "one", 1, 1⟩]) ∧
      get_new_messages stC5a "c" "a" 1 6
        = .ok (stC5b, [⟨"m2", "c", "b", "two", 2, 2⟩]) := by
  constructor
  · rfl
  · rfl

/-- C9 (amended): the REST get_messages endpoint never mutates the store; it
returns the input store unchanged together with exactly the channel's
messages whose sender row still exists — all of them when they number at
most limit, otherwise a highest-sequence (most recent) limit of them — in
ascending sequence (chronological) order, each annotated through
enrichMessage from the unchanged store. -/
theorem get_messages_read_only (st : Store) (cid : String) (limit : Nat) :
    (get_messages st cid limit).1 = st ∧
      List.Sorted (fun x y => x ≤ y)
        ((get_messages st cid limit).2.map fun e => e.sequence_number) ∧
      (get_messages st cid limit).2.length ≤ limit ∧
      (∀ e ∈ (get_messages st cid limit).2, ∃ m a, m ∈ st.messages ∧
        m.channel_id = cid ∧ a ∈ st.agents ∧ a.agent_id = m.agent_id ∧
        e = enrichMessage st m a.username) ∧
      (∃ kept dropped, List.Perm (joined_rows st cid) (kept ++ dropped) ∧
        (get_messages st cid limit).2
          = (kept.map fun x => enrichMessage st x.1 x.2).reverse ∧
        kept.length = min limit (joined_rows st cid).length ∧
        (∀ p ∈ kept, ∀ q ∈ dropped,
          q.1.sequence_number ≤ p.1.sequence_number)) := by
  refine ⟨rfl, ?_, ?_, ?_, ?_⟩
  · show List.Sorted (fun x y => x ≤ y)
      ((((List.insertionSort seqGEP (joined_rows st cid)).take limit).map
        fun x => enrichMessage st x.1 x.2).reverse.map fun e => e.sequence_number)
    rw [List.map_reverse]
    unfold List.Sorted
    rw [List.pairwise_reverse]
    rw [List.pairwise_map, List.pairwise_map]
    exact List.Pairwise.sublist (List.take_sublist _ _)
      (List.sorted_insertionSort seqGEP _)
  · show ((((List.insertionSort seqGEP (joined_rows st cid)).take limit).map
        fun x => enrichMessage st x.1 x.2).reverse).length ≤ limit
    rw [List.length_reverse, List.length_map, List.length_take]
    exact Nat.min_le_left _ _
  · intro e he
    rw [show (get_messages st cid limit).2
        = (((List.insertionSort seqGEP (joined_rows st cid)).take limit).map
          fun x => enrichMessage st x.1 x.2).reverse from rfl] at he
    rw [List.mem_reverse, List.mem_map] at he
    obtain ⟨x, hx, hex⟩ := he
    have hxrows : x ∈ joined_rows st cid :=
      (List.perm_insertionSort seqGEP _).mem_iff.mp
        ((List.take_sublist _ _).mem hx)
    unfold joined_rows at hxrows
    rw [List.mem_filterMap] at hxrows
    obtain ⟨m, hm, hfm⟩ := hxrows
    by_cases hchan : (m.channel_id == cid) = true
    · rw [if_pos hchan] at hfm
      rw [Option.map_eq_some'] at hfm
      obtain ⟨a, hfind, hax⟩ := hfm
      refine ⟨m, a, hm, by simpa using hchan,
        List.mem_of_find?_eq_some hfind, ?_, ?_⟩
      · have := List.find?_some hfind
        simpa using this
      · rw [← hex, ← hax]
    · rw [if_neg hchan] at hfm
      exact absurd hfm (by simp)
  · refine ⟨(List.insertionSort seqGEP (joined_rows st cid)).take limit,
      (List.insertionSort seqGEP (joined_rows st cid)).drop limit, ?_, rfl, ?_, ?_⟩
    · rw [List.take_append_drop]
      exact (List.perm_insertionSort seqGEP _).symm
    · rw [List.length_take, (List.perm_insertionSort seqGEP _).length_eq]
    · intro p hp q hq
      have hpw := List.pairwise_append.mp
        (show ((List.insertionSort seqGEP (joined_rows st cid)).take limit
            ++ (List.insertionSort seqGEP (joined_rows st cid)).drop limit).Pairwise
              seqGEP from by
          rw [List.take_append_drop]
          exact List.sorted_insertionSort seqGEP _)
      exact hpw.2.2 p hp q hq

/-- Store of the C9 witness: one message of a present sender, read by him. -/
def stC9w : Store :=
  { channels := [⟨"c", "general", none, 10, 0, true⟩],
    agents := [⟨"b", "c", "bob", "bobby role descr", 0⟩],
    messages := [⟨"m1", "c", "b", "hello", 1, 1⟩],
    mentions := [],
    read_status := [⟨"b", "m1", 1⟩] }

theorem get_messages_read_only_witness :
    (get_messages stC9w "c" 5).1 = stC9w ∧
      List.Sorted (fun x y => x ≤ y)
        ((get_messages stC9w "c" 5).2.map fun e => e.sequence_number) ∧
      (get_messages stC9w "c" 5).2.length ≤ 5 ∧
      (∀ e ∈ (get_messages stC9w "c" 5).2, ∃ m a, m ∈ stC9w.messages ∧
        m.channel_id = "c" ∧ a ∈ stC9w.agents ∧ a.agent_id = m.agent_id ∧
        e = enrichMessage stC9w m a.username) ∧
      (∃ kept dropped, List.Perm (joined_rows stC9w "c") (kept ++ dropped) ∧
        (get_messages stC9w "c" 5).2
          = (kept.map fun x => enrichMessage stC9w x.1 x.2).reverse ∧
        kept.length = min 5 (joined_rows stC9w "c").length ∧
        (∀ p ∈ kept, ∀ q ∈ dropped,
          q.1.sequence_number ≤ p.1.sequence_number)) :=
  get_messages_read_only stC9w "c" 5

/-- Store of the C9 counterexample: the only message of the channel was
authored by an agent whose row is gone (it left; messages persist). -/
def stC9 : Store :=
  { channels := [⟨"c", "general", none, 10, 0, true⟩],
    agents := [],
    messages := [⟨"m1", "c", "gone", "orphan message", 1, 1⟩],
    mentions := [],
    read_status := [] }

/-- C9 counterexample: the claim says the endpoint returns the messages of
the channel, but the inner join with agents drops a message whose sender row
no longer exists: the channel holds a message, yet the endpoint returns the
empty list. -/
theorem get_messages_drops_orphan_messages :
    (get_messages stC9 "c" 50).2 = [] ∧
      (∃ m ∈ stC9.messages, m.channel_id = "c") := by
  constructor
  · rfl
  · exact ⟨⟨"m1", "c", "gone", "orphan message", 1, 1⟩, by decide, rfl⟩

end ChatMCP
